import Mathlib

/-!
Shallow embedding of the peer-to-peer network layer of the
go-blockchain-app repository (package `network`: `handlers.go`,
`mempool.go`, the node manager, the server and the sync manager),
together with proofs about the embedded operations.

Conventions of the embedding:
* Go byte slices (`[]byte`) become `List Nat`, one `Nat` per byte.
* Go `time.Time` values become `Nat` instants; `Before` becomes `<`.
* Go `int` / `int32` counters and heights become `Int` where sign
  matters and `Nat` where the code only ever holds sizes.
* A Go `map[string]V` becomes an association list `List (String × V)`
  with map-like helpers `mapLookup` / `mapSet` / `mapErase`; Go map
  iteration order is the list order (Go's order is arbitrary, and every
  property proved below is insensitive to the order chosen).
* Functions that can call `log.Panic` return a `GoResult`, whose
  `panicked` constructor records that the process dies rather than an
  error being returned.
* `for range` loops follow the per-iteration loop-variable semantics of
  current Go toolchains (Go 1.22 and later).
-/

namespace Network

/-- Outcome of a Go computation that may terminate the process through
`log.Panic` instead of returning. -/
inductive GoResult (α : Type) where
  | ok (a : α)
  | panicked
  deriving Repr, DecidableEq

/-- Association-list lookup, modelling `m[k]` read on a Go map. -/
def mapLookup {α : Type} (k : String) (l : List (String × α)) : Option α :=
  (l.find? (fun p => p.1 = k)).map (fun p => p.2)

/-- Removal of a key, modelling `delete(m, k)` on a Go map.  It filters
every binding of the key; the tables built below never hold a key
twice, so at most one binding is removed. -/
def mapErase {α : Type} (k : String) (l : List (String × α)) : List (String × α) :=
  l.filter (fun p => p.1 ≠ k)

/-- Insertion `m[k] = v` on a Go map: any previous binding of `k` is
replaced, otherwise the binding is appended. -/
def mapSet {α : Type} (k : String) (v : α) (l : List (String × α)) : List (String × α) :=
  mapErase k l ++ [(k, v)]

/-- The keys of an association list. -/
def mapKeys {α : Type} (l : List (String × α)) : List String :=
  l.map (fun p => p.1)

/-- One lowercase hexadecimal digit, as produced by `fmt.Sprintf("%x", ...)`. -/
def hexChar (n : Nat) : Char :=
  if n < 10 then Char.ofNat (48 + n) else Char.ofNat (87 + n)

/-- `fmt.Sprintf("%x", bs)` on a byte slice: two lowercase hex digits
per byte. -/
def hexOf (bs : List Nat) : String :=
  String.mk ((bs.map (fun b => [hexChar (b / 16 % 16), hexChar (b % 16)])).flatten)

/-! ## Message codec (`handlers.go`, protocol part)

The wire message is `Message{Command string, Data []byte}`.  The Go code
encodes it with `encoding/gob`; the gob encoding itself lives in the Go
standard library, so it is modelled here by an executable injective
encoding `gobEncodeMessage` with a decoder `gobDecodeMessage` that
recovers every encoded message and fails (returns `none`) on byte
strings that encode nothing — the two facts about gob the repository
relies on. -/

/-- A network message: command tag plus opaque payload
(`Message` in `handlers.go`). -/
structure Message where
  command : String
  data : List Nat
  deriving Repr, DecidableEq

/-- The recognized command tags (`CmdVersion` … `CmdPong`). -/
def recognizedCommands : List String :=
  ["version", "getblocks", "inv", "getdata", "block", "tx", "ping", "pong"]

/-- Unary length marker used by the gob model: `n` ones then a zero. -/
def encNat (n : Nat) : List Nat :=
  List.replicate n 1 ++ [0]

/-- Decoder for `encNat`; fails on ill-formed input. -/
def decNat : List Nat → Option (Nat × List Nat)
  | 0 :: rest => some (0, rest)
  | 1 :: rest => (decNat rest).map (fun p => (p.1 + 1, p.2))
  | _ => none

/-- Model of `gob.Encoder.Encode` on a `Message`: length-prefixed
command bytes followed by the length-prefixed payload. -/
def gobEncodeMessage (m : Message) : List Nat :=
  encNat m.command.data.length ++ m.command.data.map Char.toNat ++
    encNat m.data.length ++ m.data

/-- Model of `gob.Decoder.Decode` into a `Message`: recovers the
command and payload, failing on malformed or truncated input.  Like the
real decoder it reads one value and ignores trailing bytes. -/
def gobDecodeMessage (bs : List Nat) : Option Message :=
  (decNat bs).bind (fun p1 =>
    if p1.1 ≤ p1.2.length then
      (decNat (p1.2.drop p1.1)).bind (fun p2 =>
        if p2.1 ≤ p2.2.length then
          some { command := String.mk ((p1.2.take p1.1).map Char.ofNat),
                 data := p2.2.take p2.1 }
        else none)
    else none)

/-- `SerializeMessage` (`handlers.go`): gob-encodes the message.  The
encoder is total on `Message`, so the `log.Panic` branch of the Go code
is unreachable. -/
def SerializeMessage (msg : Message) : List Nat :=
  gobEncodeMessage msg

/-- `DeserializeMessage` (`handlers.go`): gob-decodes the bytes and
calls `log.Panic` when decoding fails. -/
def DeserializeMessage (data : List Nat) : GoResult Message :=
  match gobDecodeMessage data with
  | some msg => .ok msg
  | none => .panicked

/-- `IntToBytes` (`handlers.go`): 4-byte big-endian length prefix; each
`byte(n >> k)` truncates modulo 256. -/
def IntToBytes (n : Nat) : List Nat :=
  [n >>> 24 % 256, n >>> 16 % 256, n >>> 8 % 256, n % 256]

/-- `BytesToInt` (`handlers.go`): big-endian read of the first four
bytes. -/
def BytesToInt (b : List Nat) : Nat :=
  (b.getD 0 0) <<< 24 ||| (b.getD 1 0) <<< 16 ||| (b.getD 2 0) <<< 8 ||| b.getD 3 0

/-- Outcome of `ReadMessage`: an I/O error handed to the caller, a
process-killing panic raised inside `DeserializeMessage`, or a decoded
message. -/
inductive ReadOutcome where
  | ioError
  | panicked
  | ok (m : Message)
  deriving Repr, DecidableEq

/-- `ReadMessage` (`handlers.go`) on a connection whose remaining bytes
are `input`: `io.ReadFull` of the 4-byte length prefix, then
`io.ReadFull` of that many body bytes (each returning an error to the
caller when the stream is too short), then `DeserializeMessage` on the
body, which panics on malformed bytes. -/
def ReadMessage (input : List Nat) : ReadOutcome :=
  if input.length < 4 then .ioError
  else if (input.drop 4).length < BytesToInt (input.take 4) then .ioError
  else
    match DeserializeMessage ((input.drop 4).take (BytesToInt (input.take 4))) with
    | .panicked => .panicked
    | .ok m => .ok m

/-- `WriteMessage` (`handlers.go`): length prefix followed by the
serialized message. -/
def WriteMessage (msg : Message) : List Nat :=
  IntToBytes (SerializeMessage msg).length ++ SerializeMessage msg

/-- `BytesEqual` (`handlers.go`): length check then pointwise byte
comparison. -/
def BytesEqual : List Nat → List Nat → Bool
  | [], [] => true
  | [], _ :: _ => false
  | _ :: _, [] => false
  | a :: as, b :: bs => a == b && BytesEqual as bs

/-! ## Mempool manager (`mempool.go`) -/

/-- The `TransactionInterface` collaborator: stable ID extraction and
byte serialization. -/
structure TransactionInterface where
  getID : List Nat
  serialize : List Nat
  deriving Repr, DecidableEq

/-- `MempoolTransaction` (`mempool.go`): a pool entry. -/
structure MempoolTransaction where
  transaction : TransactionInterface
  timestamp : Nat
  fees : Int
  size : Nat
  verified : Bool
  deriving Repr, DecidableEq

/-- `MempoolManager` (`mempool.go`): the unconfirmed-transaction table
plus its configuration.  `timeout` is in seconds. -/
structure MempoolManager where
  transactions : List (String × MempoolTransaction)
  maxSize : Nat
  timeout : Nat
  deriving Repr, DecidableEq

/-- `NewMempoolManager` (`mempool.go`): empty pool, `maxSize = 1000`,
`timeout = 24h`. -/
def NewMempoolManager : MempoolManager :=
  { transactions := [], maxSize := 1000, timeout := 24 * 60 * 60 }

/-- `calculateFees` (`mempool.go`): 10 per serialized byte. -/
def calculateFees (tx : TransactionInterface) : Int :=
  (tx.serialize.length : Int) * 10

/-- The key under which a transaction is stored:
`fmt.Sprintf("%x", tx.GetID())`. -/
def txKey (tx : TransactionInterface) : String :=
  hexOf tx.getID

/-- The mempool admission error of `AddTransaction`
(`transaction %s already in mempool`). -/
inductive MempoolError where
  | duplicate (txID : String)
  deriving Repr, DecidableEq

/-- Loop body of `evictOldestTransaction`: keep the running
`(oldestTxID, oldestTime)` pair, replacing it when no candidate has
been chosen yet (`oldestTxID == ""`) or the entry is strictly older. -/
def evictFoldStep (acc : String × Nat) (p : String × MempoolTransaction) : String × Nat :=
  if acc.1 = "" ∨ p.2.timestamp < acc.2 then (p.1, p.2.timestamp) else acc

/-- `evictOldestTransaction` (`mempool.go`): scan the table for the
oldest entry and delete it (when a candidate with a non-empty key was
found). -/
def evictOldestTransaction (mm : MempoolManager) : MempoolManager :=
  let r := mm.transactions.foldl evictFoldStep ("", 0)
  if r.1 ≠ "" then { mm with transactions := mapErase r.1 mm.transactions } else mm

/-- The `MempoolTransaction` literal built inside `AddTransaction`:
current timestamp, computed fee, serialized size, marked verified. -/
def newMempoolEntry (tx : TransactionInterface) (now : Nat) : MempoolTransaction :=
  { transaction := tx, timestamp := now, fees := calculateFees tx,
    size := tx.serialize.length, verified := true }

/-- `AddTransaction` (`mempool.go`): reject a duplicate ID leaving the
pool untouched; evict the oldest entry when the pool is at capacity
(`len >= maxSize`); then insert the new entry stamped with the current
time. -/
def AddTransaction (mm : MempoolManager) (tx : TransactionInterface) (now : Nat) :
    Option MempoolError × MempoolManager :=
  if (mapLookup (txKey tx) mm.transactions).isSome then
    (some (.duplicate (txKey tx)), mm)
  else if mm.transactions.length ≥ mm.maxSize then
    let mm1 := evictOldestTransaction mm
    (none, { mm1 with transactions := mapSet (txKey tx) (newMempoolEntry tx now) mm1.transactions })
  else
    (none, { mm with transactions := mapSet (txKey tx) (newMempoolEntry tx now) mm.transactions })

/-- `RemoveTransaction` (`mempool.go`). -/
def RemoveTransaction (mm : MempoolManager) (txID : List Nat) : MempoolManager :=
  { mm with transactions := mapErase (hexOf txID) mm.transactions }

/-- `RemoveConfirmedTransactions` (`mempool.go`): delete each supplied
ID that is present. -/
def RemoveConfirmedTransactions (mm : MempoolManager) (ids : List (List Nat)) : MempoolManager :=
  { mm with transactions := ids.foldl (fun t id => mapErase (hexOf id) t) mm.transactions }

/-- `CleanExpiredTransactions` (`mempool.go`): drop every entry whose
age exceeds the pool timeout. -/
def CleanExpiredTransactions (mm : MempoolManager) (now : Nat) : MempoolManager :=
  { mm with transactions := mm.transactions.filter (fun p => ¬ (now - p.2.timestamp > mm.timeout)) }

/-- `Clear` (`mempool.go`). -/
def MempoolClear (mm : MempoolManager) : MempoolManager :=
  { mm with transactions := [] }

/-- `HasTransaction` (`mempool.go`). -/
def HasTransaction (mm : MempoolManager) (txID : List Nat) : Bool :=
  (mapLookup (hexOf txID) mm.transactions).isSome

/-- The pool-mutating operations of the mempool manager. -/
inductive MempoolOp where
  | add (tx : TransactionInterface) (now : Nat)
  | remove (txID : List Nat)
  | removeConfirmed (ids : List (List Nat))
  | cleanExpired (now : Nat)
  | clear
  deriving Repr

/-- Run one mempool operation on the pool state. -/
def applyMempoolOp (mm : MempoolManager) : MempoolOp → MempoolManager
  | .add tx now => (AddTransaction mm tx now).2
  | .remove id => RemoveTransaction mm id
  | .removeConfirmed ids => RemoveConfirmedTransactions mm ids
  | .cleanExpired now => CleanExpiredTransactions mm now
  | .clear => MempoolClear mm

/-- Run a sequence of mempool operations. -/
def applyMempoolOps (mm : MempoolManager) (ops : List MempoolOp) : MempoolManager :=
  ops.foldl applyMempoolOp mm

/-- An operation is well formed when any transaction it admits has a
non-empty ID, as every transaction of this repository does (IDs are
SHA-256 hashes; `ValidateTransaction` rejects an empty ID). -/
def mempoolOpWF : MempoolOp → Bool
  | .add tx _ => !tx.getID.isEmpty
  | _ => true

/-- Structural invariant of the transaction table: keys are distinct
and non-empty. -/
def MempoolKeysOK (mm : MempoolManager) : Prop :=
  (mapKeys mm.transactions).Nodup ∧ ∀ k ∈ mapKeys mm.transactions, k ≠ ""

/-! ## Node manager (`mempool.go`, `NodeManager` part) -/

/-- `PeerStatus` (`mempool.go`). -/
inductive PeerStatus where
  | connecting
  | connected
  | disconnected
  | banned
  deriving Repr, DecidableEq

/-- `Peer` (`mempool.go`); the `address` field is the map key and is
kept in the binding. -/
structure Peer where
  lastSeen : Nat
  height : Int
  status : PeerStatus
  connected : Bool
  version : Int
  deriving Repr, DecidableEq

/-- `NodeManager` (`mempool.go`): the peer table, self address and the
`maxPeers` bound. -/
structure NodeManager where
  selfAddr : String
  peers : List (String × Peer)
  maxPeers : Nat
  deriving Repr, DecidableEq

/-- `NewNodeManager` (`mempool.go`): empty table, `maxPeers = 8`. -/
def NewNodeManager (selfAddr : String) : NodeManager :=
  { selfAddr := selfAddr, peers := [], maxPeers := 8 }

/-- The per-peer test of `getConnectedPeerCount`:
`Connected && Status == PeerStatusConnected`. -/
def connPred (p : String × Peer) : Bool :=
  p.2.connected && p.2.status == .connected

/-- `getConnectedPeerCount` (`mempool.go`): number of peers passing
`connPred`. -/
def getConnectedPeerCount (nm : NodeManager) : Nat :=
  (nm.peers.filter connPred).length

/-- The errors `ConnectToPeer` can surface. -/
inductive ConnectError where
  | selfConnect
  | alreadyConnected
  | maxPeersReached
  | dialFailed
  deriving Repr, DecidableEq

/-- `NodeManager.ConnectToPeer` (`mempool.go`).  `dialOK` is the
outcome of the transport-level `server.ConnectToPeer` dial.  Rejects
self-connection, an already-connected peer and a full table; otherwise
records a Connecting entry and transitions it to Connected on a
successful dial, Disconnected on a failed one. -/
def ConnectToPeer (nm : NodeManager) (address : String) (dialOK : Bool) (now : Nat) :
    Option ConnectError × NodeManager :=
  if address = nm.selfAddr then
    (some .selfConnect, nm)
  else if (mapLookup address nm.peers).any (fun p => p.connected) then
    (some .alreadyConnected, nm)
  else if getConnectedPeerCount nm ≥ nm.maxPeers then
    (some .maxPeersReached, nm)
  else
    let peer : Peer :=
      { lastSeen := now, height := 0, status := .connecting, connected := false, version := 0 }
    if dialOK then
      let connectedPeer :=
        { peer with connected := true, status := PeerStatus.connected, lastSeen := now }
      (none, { nm with peers := mapSet address connectedPeer nm.peers })
    else
      let failedPeer := { peer with status := PeerStatus.disconnected }
      (some .dialFailed, { nm with peers := mapSet address failedPeer nm.peers })

/-- `DisconnectFromPeer` (`mempool.go`): if the peer exists, mark it
not connected with status Disconnected. -/
def DisconnectFromPeer (nm : NodeManager) (address : String) : NodeManager :=
  match mapLookup address nm.peers with
  | some peer =>
      let p1 := { peer with connected := false, status := PeerStatus.disconnected }
      { nm with peers := mapSet address p1 nm.peers }
  | none => nm

/-- `AddPeer` (`mempool.go`): no-op for self or a known address,
otherwise insert a Disconnected entry. -/
def AddPeer (nm : NodeManager) (address : String) (now : Nat) : NodeManager :=
  if address = nm.selfAddr then nm
  else if (mapLookup address nm.peers).isSome then nm
  else
    let p1 : Peer :=
      { lastSeen := now, height := 0, status := .disconnected, connected := false, version := 0 }
    { nm with peers := mapSet address p1 nm.peers }

/-- `RemovePeer` (`mempool.go`). -/
def RemovePeer (nm : NodeManager) (address : String) : NodeManager :=
  { nm with peers := mapErase address nm.peers }

/-- `UpdatePeerInfo` (`mempool.go`): upsert the advertised
height/version and mark the peer Connected with a fresh timestamp. -/
def UpdatePeerInfo (nm : NodeManager) (address : String) (height : Int) (version : Int)
    (now : Nat) : NodeManager :=
  match mapLookup address nm.peers with
  | some peer =>
      let p1 :=
        { peer with height := height, version := version, lastSeen := now,
                    connected := true, status := PeerStatus.connected }
      { nm with peers := mapSet address p1 nm.peers }
  | none =>
      let p1 : Peer :=
        { lastSeen := now, height := height, status := .connected,
          connected := true, version := version }
      { nm with peers := mapSet address p1 nm.peers }

/-- `BanPeer` (`mempool.go`): if the peer exists, mark it Banned and
not connected. -/
def BanPeer (nm : NodeManager) (address : String) : NodeManager :=
  match mapLookup address nm.peers with
  | some peer =>
      let p1 := { peer with status := PeerStatus.banned, connected := false }
      { nm with peers := mapSet address p1 nm.peers }
  | none => nm

/-- `IsPeerBanned` (`mempool.go`). -/
def IsPeerBanned (nm : NodeManager) (address : String) : Bool :=
  (mapLookup address nm.peers).any (fun p => p.status == .banned)

/-- The status of a peer in the table, when present. -/
def peerStatus (nm : NodeManager) (address : String) : Option PeerStatus :=
  (mapLookup address nm.peers).map (fun p => p.status)

/-- The peer-table mutating operations of the node manager. -/
inductive NodeOp where
  | connect (address : String) (dialOK : Bool) (now : Nat)
  | disconnect (address : String)
  | addPeer (address : String) (now : Nat)
  | removePeer (address : String)
  | banPeer (address : String)
  | updatePeerInfo (address : String) (height : Int) (version : Int) (now : Nat)
  deriving Repr

/-- Run one node-manager operation. -/
def applyNodeOp (nm : NodeManager) : NodeOp → NodeManager
  | .connect a ok now => (ConnectToPeer nm a ok now).2
  | .disconnect a => DisconnectFromPeer nm a
  | .addPeer a now => AddPeer nm a now
  | .removePeer a => RemovePeer nm a
  | .banPeer a => BanPeer nm a
  | .updatePeerInfo a h v now => UpdatePeerInfo nm a h v now

/-- Run a sequence of node-manager operations. -/
def applyNodeOps (nm : NodeManager) (ops : List NodeOp) : NodeManager :=
  ops.foldl applyNodeOp nm

/-- The operations other than `UpdatePeerInfo`. -/
def nodeOpNotUpdate : NodeOp → Bool
  | .updatePeerInfo _ _ _ _ => false
  | _ => true

/-! ## Protocol handlers (`handlers.go`) -/

/-- `VersionData` (`handlers.go`). -/
structure VersionData where
  version : Int
  bestHeight : Int
  addrFrom : String
  deriving Repr, DecidableEq

/-- `InvData` (`handlers.go`). -/
structure InvData where
  addrFrom : String
  type : String
  items : List (List Nat)
  deriving Repr, DecidableEq

/-- An outbound send triggered by a handler. -/
inductive SendAction where
  | sendGetBlocks (addr : String)
  | sendVersion (addr : String)
  | sendGetData (addr : String) (kind : String) (id : List Nat)
  deriving Repr, DecidableEq

/-- The server state a handler touches: own address, local best height
(via the blockchain collaborator), the known-node set and the node
manager. -/
structure ServerState where
  address : String
  bestHeight : Int
  knownNodes : List String
  nodeMgr : NodeManager
  deriving Repr

/-- `NodeIsKnown` (`handlers.go`). -/
def NodeIsKnown (s : ServerState) (addr : String) : Bool :=
  s.knownNodes.contains addr

/-- `HandleVersion` (`handlers.go`) applied to the already-decoded
payload: request blocks when the peer is ahead, reply with our version
when we are ahead, then record the sender as known and update its peer
entry. -/
def HandleVersion (s : ServerState) (v : VersionData) (now : Nat) :
    List SendAction × ServerState :=
  let myBestHeight := s.bestHeight
  let foreignerBestHeight := v.bestHeight
  let sends : List SendAction :=
    if myBestHeight < foreignerBestHeight then [.sendGetBlocks v.addrFrom]
    else if myBestHeight > foreignerBestHeight then [.sendVersion v.addrFrom]
    else []
  let s1 := if NodeIsKnown s v.addrFrom then s
            else { s with knownNodes := s.knownNodes ++ [v.addrFrom] }
  (sends, { s1 with nodeMgr := UpdatePeerInfo s1.nodeMgr v.addrFrom v.bestHeight v.version now })

/-- Result of `HandleInv`: the new `blocksInTransit` queue and the
getdata requests sent. -/
structure HandleInvResult where
  blocksInTransit : List (List Nat)
  sent : List SendAction
  deriving Repr, DecidableEq

/-- `HandleInv` (`handlers.go`) applied to the already-decoded payload.
`transit` is the global `blocksInTransit` queue, `txExists` the
`TransactionExists` mempool lookup.  For a block inventory the queue is
set to the advertised items, `items[0]` is requested (an unguarded
index — the empty list panics) and every queue entry equal to it is
filtered out; for a tx inventory `items[0]` is requested unless already
held. -/
def HandleInv (transit : List (List Nat)) (inv : InvData) (txExists : List Nat → Bool) :
    GoResult HandleInvResult :=
  if inv.type = "block" then
    let transit1 := inv.items
    match transit1 with
    | [] => .panicked
    | blockHash :: _ =>
        let newInTransit := transit1.filter (fun b => !BytesEqual b blockHash)
        .ok { blocksInTransit := newInTransit,
              sent := [.sendGetData inv.addrFrom "block" blockHash] }
  else if inv.type = "tx" then
    match inv.items with
    | [] => .panicked
    | txID :: _ =>
        .ok { blocksInTransit := transit,
              sent := if txExists txID then [] else [.sendGetData inv.addrFrom "tx" txID] }
  else
    .ok { blocksInTransit := transit, sent := [] }

/-! ## Sync manager (the `SyncManager` source file) -/

/-- `ChainInfo` (sync manager): a candidate chain descriptor. -/
structure ChainInfo where
  nodeAddr : String
  height : Int
  hash : List Nat
  deriving Repr, DecidableEq

/-- `validateChainInfo` (sync manager):
`chain.Height >= 0 && len(chain.Hash) > 0`. -/
def validateChainInfo (chain : ChainInfo) : Bool :=
  0 ≤ chain.height && chain.hash.length > 0

/-- One iteration of the `findLongestChain` loop: replace the running
candidate when none is chosen yet or the chain is strictly taller, and
only if the chain validates. -/
def findLongestStep (longest : Option ChainInfo) (chain : ChainInfo) : Option ChainInfo :=
  match longest with
  | none => if validateChainInfo chain then some chain else none
  | some l =>
      if chain.height > l.height then
        if validateChainInfo chain then some chain else some l
      else some l

/-- `findLongestChain` (sync manager): fold `findLongestStep` over the
candidates (per-iteration loop-variable semantics of Go ≥ 1.22). -/
def findLongestChain (chains : List ChainInfo) : Option ChainInfo :=
  chains.foldl findLongestStep none

/-- `ResolveChainConflicts` (sync manager): pick the longest valid
candidate; when it is taller than the local best height, adopt it by
re-requesting blocks from its node (`adoptChain` sends `getblocks`).
Returns the adoption target, when any. -/
def ResolveChainConflicts (currentHeight : Int) (competingChains : List ChainInfo) :
    Option String :=
  match findLongestChain competingChains with
  | none => none
  | some longestChain =>
      if longestChain.height > currentHeight then some longestChain.nodeAddr else none

/-! ## Concrete data used in witnesses and counterexamples -/

/-- A small transaction with a two-byte ID. -/
def wtxA : TransactionInterface := { getID := [0, 1], serialize := [9, 9, 9] }

/-- A second small transaction. -/
def wtxB : TransactionInterface := { getID := [0, 2], serialize := [9] }

/-- A third small transaction, absent from `wPool2`. -/
def wtxC : TransactionInterface := { getID := [0, 3], serialize := [] }

/-- A pool at capacity 2 holding `wtxA` (admitted at 5) and `wtxB`
(admitted at 3). -/
def wPool2 : MempoolManager :=
  { transactions := [(txKey wtxA, newMempoolEntry wtxA 5), (txKey wtxB, newMempoolEntry wtxB 3)],
    maxSize := 2, timeout := 10 }

/-- Nine distinct addresses marked Connected through `UpdatePeerInfo`. -/
def wNodeOps9 : List NodeOp :=
  [.updatePeerInfo "p0" 0 0 0, .updatePeerInfo "p1" 0 0 0, .updatePeerInfo "p2" 0 0 0,
   .updatePeerInfo "p3" 0 0 0, .updatePeerInfo "p4" 0 0 0, .updatePeerInfo "p5" 0 0 0,
   .updatePeerInfo "p6" 0 0 0, .updatePeerInfo "p7" 0 0 0, .updatePeerInfo "p8" 0 0 0]

/-- A peer table already holding eight Connected peers. -/
def wFullNode : NodeManager :=
  applyNodeOps (NewNodeManager "self")
    [.connect "p1" true 0, .connect "p2" true 0, .connect "p3" true 0, .connect "p4" true 0,
     .connect "p5" true 0, .connect "p6" true 0, .connect "p7" true 0, .connect "p8" true 0]

/-- A banned peer entry. -/
def wBannedPeer : Peer :=
  { lastSeen := 0, height := 0, status := .banned, connected := false, version := 0 }

/-- A table holding the banned peer `wBannedPeer` under address `p1`. -/
def wBannedNode : NodeManager :=
  { selfAddr := "self", peers := [("p1", wBannedPeer)], maxPeers := 8 }

/-- A server state with local best height 5. -/
def wSrv : ServerState :=
  { address := "s", bestHeight := 5, knownNodes := [], nodeMgr := NewNodeManager "s" }

/-- A version payload advertising height 10. -/
def wVer10 : VersionData := { version := 1, bestHeight := 10, addrFrom := "peer" }

/-- A version payload advertising height 2. -/
def wVer2 : VersionData := { version := 1, bestHeight := 2, addrFrom := "peer" }

/-- A version payload advertising height 5. -/
def wVer5 : VersionData := { version := 1, bestHeight := 5, addrFrom := "peer" }

/-- Three candidate chains: a valid one of height 5, an invalid one of
height 10 (empty hash), a valid one of height 7. -/
def wChains : List ChainInfo :=
  [{ nodeAddr := "n1", height := 5, hash := [1] },
   { nodeAddr := "n2", height := 10, hash := [] },
   { nodeAddr := "n3", height := 7, hash := [2] }]

/-! ## Helper lemmas about the map model -/

theorem mapLookup_isSome_iff {α : Type} (k : String) (l : List (String × α)) :
    (mapLookup k l).isSome = true ↔ k ∈ mapKeys l := by
  induction l with
  | nil => simp [mapLookup, mapKeys]
  | cons p rest ih =>
      by_cases h : p.1 = k
      · simp [mapLookup, mapKeys, List.find?_cons_of_pos, h]
      · rw [mapLookup, List.find?_cons_of_neg _ (by simp [h])]
        rw [mapLookup] at ih
        rw [ih]
        simp [mapKeys, Ne.symm h]

theorem mapLookup_eq_none_iff {α : Type} (k : String) (l : List (String × α)) :
    mapLookup k l = none ↔ k ∉ mapKeys l := by
  rw [← mapLookup_isSome_iff]
  cases mapLookup k l <;> simp

theorem mapErase_sublist {α : Type} (k : String) (l : List (String × α)) :
    (mapErase k l).Sublist l :=
  List.filter_sublist l

theorem mapErase_cons {α : Type} (k : String) (p : String × α) (rest : List (String × α)) :
    mapErase k (p :: rest) =
      if p.1 = k then mapErase k rest else p :: mapErase k rest := by
  by_cases h : p.1 = k <;> simp [mapErase, List.filter_cons, h]

theorem mem_mapKeys_mapErase {α : Type} (a k : String) (l : List (String × α)) :
    a ∈ mapKeys (mapErase k l) ↔ a ∈ mapKeys l ∧ a ≠ k := by
  simp only [mapKeys, mapErase, List.mem_map, List.mem_filter]
  constructor
  · rintro ⟨p, ⟨hp, hne⟩, rfl⟩
    exact ⟨⟨p, hp, rfl⟩, by simpa using hne⟩
  · rintro ⟨⟨p, hp, rfl⟩, hne⟩
    exact ⟨p, ⟨hp, by simpa using hne⟩, rfl⟩

theorem not_mem_mapKeys_mapErase {α : Type} (k : String) (l : List (String × α)) :
    k ∉ mapKeys (mapErase k l) := by
  rw [mem_mapKeys_mapErase]
  rintro ⟨-, h⟩
  exact h rfl

theorem mapKeys_sublist_of_sublist {α : Type} {l1 l2 : List (String × α)}
    (h : l1.Sublist l2) : (mapKeys l1).Sublist (mapKeys l2) :=
  h.map _

theorem nodup_mapKeys_mapErase {α : Type} (k : String) (l : List (String × α))
    (h : (mapKeys l).Nodup) : (mapKeys (mapErase k l)).Nodup :=
  (mapKeys_sublist_of_sublist (mapErase_sublist k l)).nodup h

theorem mapKeys_mapSet {α : Type} (k : String) (v : α) (l : List (String × α)) :
    mapKeys (mapSet k v l) = mapKeys (mapErase k l) ++ [k] := by
  simp [mapSet, mapKeys]

theorem nodup_mapKeys_mapSet {α : Type} (k : String) (v : α) (l : List (String × α))
    (h : (mapKeys l).Nodup) : (mapKeys (mapSet k v l)).Nodup := by
  rw [mapKeys_mapSet]
  refine List.Nodup.append (nodup_mapKeys_mapErase k l h) (List.nodup_singleton k) ?_
  intro a ha hb
  rw [List.mem_singleton] at hb
  subst hb
  exact not_mem_mapKeys_mapErase _ l ha

theorem length_mapErase_le {α : Type} (k : String) (l : List (String × α)) :
    (mapErase k l).length ≤ l.length :=
  (mapErase_sublist k l).length_le

theorem mapErase_of_not_mem {α : Type} (k : String) (l : List (String × α))
    (h : k ∉ mapKeys l) : mapErase k l = l := by
  apply List.filter_eq_self.mpr
  intro p hp
  simp only [decide_eq_true_eq]
  intro he
  exact h (he ▸ List.mem_map_of_mem _ hp)

theorem length_mapSet_of_not_mem {α : Type} (k : String) (v : α) (l : List (String × α))
    (h : k ∉ mapKeys l) : (mapSet k v l).length = l.length + 1 := by
  rw [mapSet, mapErase_of_not_mem k l h]
  simp

theorem mapSet_of_not_mem {α : Type} (k : String) (v : α) (l : List (String × α))
    (h : k ∉ mapKeys l) : mapSet k v l = l ++ [(k, v)] := by
  rw [mapSet, mapErase_of_not_mem k l h]

theorem length_mapSet_le {α : Type} (k : String) (v : α) (l : List (String × α)) :
    (mapSet k v l).length ≤ l.length + 1 := by
  rw [mapSet, List.length_append, List.length_singleton]
  exact Nat.add_le_add_right (length_mapErase_le k l) 1

theorem length_mapErase_of_mem {α : Type} (k : String) (l : List (String × α))
    (hnd : (mapKeys l).Nodup) (hmem : k ∈ mapKeys l) :
    (mapErase k l).length + 1 = l.length := by
  induction l with
  | nil => simp [mapKeys] at hmem
  | cons p rest ih =>
      simp only [mapKeys, List.map_cons, List.nodup_cons] at hnd
      rw [mapErase_cons]
      by_cases h : p.1 = k
      · have hkr : k ∉ mapKeys rest := h ▸ hnd.1
        rw [if_pos h, mapErase_of_not_mem k rest hkr]
        simp
      · rw [if_neg h]
        simp only [mapKeys, List.map_cons, List.mem_cons] at hmem
        rcases hmem with hk | hk
        · exact absurd hk.symm h
        · rw [List.length_cons, List.length_cons, ih hnd.2 hk]

theorem hexOf_ne_empty (bs : List Nat) (h : bs ≠ []) : hexOf bs ≠ "" := by
  cases bs with
  | nil => exact absurd rfl h
  | cons b rest =>
      intro he
      have hdata : (((b :: rest).map
          (fun b => [hexChar (b / 16 % 16), hexChar (b % 16)])).flatten) = [] := by
        have hd := congrArg String.data he
        simp only [hexOf] at hd
        exact hd
      simp [List.map_cons, List.flatten_cons] at hdata

theorem decNat_encNat (n : Nat) (rest : List Nat) :
    decNat (encNat n ++ rest) = some (n, rest) := by
  induction n with
  | zero => simp [encNat, decNat]
  | succ k ih =>
      have h : encNat (k + 1) ++ rest = 1 :: (encNat k ++ rest) := by
        simp [encNat, List.replicate_succ]
      rw [h]
      simp [decNat, ih]

theorem bytesEqual_iff (a b : List Nat) : BytesEqual a b = true ↔ a = b := by
  induction a generalizing b with
  | nil => cases b <;> simp [BytesEqual]
  | cons x xs ih =>
      cases b with
      | nil => simp [BytesEqual]
      | cons y ys => simp [BytesEqual, ih]

theorem bytesEqual_self (a : List Nat) : BytesEqual a a = true :=
  (bytesEqual_iff a a).mpr rfl

/-- Round trip of the gob model: decoding an encoded message recovers
it exactly. -/
theorem gobDecode_gobEncode (m : Message) :
    gobDecodeMessage (gobEncodeMessage m) = some m := by
  unfold gobEncodeMessage gobDecodeMessage
  rw [List.append_assoc, List.append_assoc, decNat_encNat]
  simp only [Option.some_bind]
  rw [show m.command.data.length = (m.command.data.map Char.toNat).length from
    (List.length_map _ _).symm]
  rw [if_pos (by simp)]
  rw [List.take_left, List.drop_left, decNat_encNat]
  simp only [Option.some_bind]
  rw [if_pos (le_refl _)]
  have hchars : (m.command.data.map Char.toNat).map Char.ofNat = m.command.data := by
    rw [List.map_map]
    have h : ∀ c ∈ m.command.data, (Char.ofNat ∘ Char.toNat) c = id c := by
      intro c _
      exact Char.ofNat_toNat c
    exact (List.map_congr_left h).trans (List.map_id _)
  rw [List.take_length, hchars]

/-! ## Eviction: the selected entry has minimal admission timestamp -/

theorem evictFold_aux (l : List (String × MempoolTransaction)) :
    ∀ acc : String × Nat, acc.1 ≠ "" → (∀ q ∈ l, q.1 ≠ "") →
      (l.foldl evictFoldStep acc).1 ≠ "" ∧
      (l.foldl evictFoldStep acc = acc ∨
        ∃ e, ((l.foldl evictFoldStep acc).1, e) ∈ l ∧
          e.timestamp = (l.foldl evictFoldStep acc).2) ∧
      (l.foldl evictFoldStep acc).2 ≤ acc.2 ∧
      ∀ q ∈ l, (l.foldl evictFoldStep acc).2 ≤ q.2.timestamp := by
  induction l with
  | nil =>
      intro acc hacc _
      simp [hacc]
  | cons p rest ih =>
      intro acc hacc hkeys
      have hp : p.1 ≠ "" := hkeys p (List.mem_cons_self p rest)
      have hkeysRest : ∀ q ∈ rest, q.1 ≠ "" :=
        fun q hq => hkeys q (List.mem_cons_of_mem p hq)
      rw [List.foldl_cons]
      by_cases hlt : p.2.timestamp < acc.2
      · have hstep : evictFoldStep acc p = (p.1, p.2.timestamp) := by
          simp [evictFoldStep, hlt]
        rw [hstep]
        obtain ⟨h1, h2, h3, h4⟩ := ih (p.1, p.2.timestamp) hp hkeysRest
        refine ⟨h1, ?_, ?_, ?_⟩
        · rcases h2 with h2 | ⟨e, he, het⟩
          · right
            refine ⟨p.2, ?_, ?_⟩
            · rw [h2]
              exact List.mem_cons_self p rest
            · rw [h2]
          · right
            exact ⟨e, List.mem_cons_of_mem p he, het⟩
        · exact le_trans h3 (le_of_lt hlt)
        · intro q hq
          rcases List.mem_cons.mp hq with rfl | hq2
          · exact h3
          · exact h4 q hq2
      · have hstep : evictFoldStep acc p = acc := by
          simp [evictFoldStep, hacc, hlt]
        rw [hstep]
        obtain ⟨h1, h2, h3, h4⟩ := ih acc hacc hkeysRest
        refine ⟨h1, ?_, h3, ?_⟩
        · rcases h2 with h2 | ⟨e, he, het⟩
          · exact Or.inl h2
          · exact Or.inr ⟨e, List.mem_cons_of_mem p he, het⟩
        · intro q hq
          rcases List.mem_cons.mp hq with rfl | hq2
          · exact le_trans h3 (not_lt.mp hlt)
          · exact h4 q hq2

theorem evictOldestTransaction_spec (mm : MempoolManager)
    (hne : mm.transactions ≠ [])
    (hkeys : ∀ k ∈ mapKeys mm.transactions, k ≠ "") :
    ∃ k e, (k, e) ∈ mm.transactions ∧
      (∀ p ∈ mm.transactions, e.timestamp ≤ p.2.timestamp) ∧
      (evictOldestTransaction mm).transactions = mapErase k mm.transactions ∧
      (evictOldestTransaction mm).maxSize = mm.maxSize ∧
      (evictOldestTransaction mm).timeout = mm.timeout := by
  obtain ⟨p, rest, hl⟩ := List.exists_cons_of_ne_nil hne
  have hp : p.1 ≠ "" := by
    apply hkeys
    rw [hl]
    exact List.mem_map_of_mem _ (List.mem_cons_self p rest)
  have hkeysRest : ∀ q ∈ rest, q.1 ≠ "" := by
    intro q hq
    apply hkeys
    rw [hl]
    exact List.mem_map_of_mem _ (List.mem_cons_of_mem p hq)
  have hstep : evictFoldStep ("", 0) p = (p.1, p.2.timestamp) := by
    simp [evictFoldStep]
  obtain ⟨h1, h2, h3, h4⟩ := evictFold_aux rest (p.1, p.2.timestamp) hp hkeysRest
  set r := rest.foldl evictFoldStep (p.1, p.2.timestamp) with hr
  have hfold : mm.transactions.foldl evictFoldStep ("", 0) = r := by
    rw [hl, List.foldl_cons, hstep]
  have hmem : ∃ e, (r.1, e) ∈ mm.transactions ∧ e.timestamp = r.2 := by
    rcases h2 with h2 | ⟨e, he, het⟩
    · refine ⟨p.2, ?_, ?_⟩
      · rw [hl, h2]
        exact List.mem_cons_self p rest
      · rw [h2]
    · exact ⟨e, by rw [hl]; exact List.mem_cons_of_mem p he, het⟩
  obtain ⟨e, hmemE, htsE⟩ := hmem
  have hmin : ∀ q ∈ mm.transactions, e.timestamp ≤ q.2.timestamp := by
    intro q hq
    rw [htsE]
    rw [hl] at hq
    rcases List.mem_cons.mp hq with rfl | hq2
    · exact h3
    · exact h4 q hq2
  refine ⟨r.1, e, hmemE, hmin, ?_, ?_, ?_⟩
  · unfold evictOldestTransaction
    rw [hfold, if_pos h1]
  · unfold evictOldestTransaction
    rw [hfold]
    by_cases hc : r.1 ≠ "" <;> simp [hc]
  · unfold evictOldestTransaction
    rw [hfold]
    by_cases hc : r.1 ≠ "" <;> simp [hc]

/-! ## Mempool invariants -/

/-- Invariant of every reachable pool (for operation sequences whose
admitted transactions have non-empty IDs): keys are distinct and
non-empty, each binding is keyed by its transaction's rendered ID, and
the pool size stays within `maxSize`. -/
def MempoolInv (mm : MempoolManager) : Prop :=
  (mapKeys mm.transactions).Nodup ∧
  (∀ k ∈ mapKeys mm.transactions, k ≠ "") ∧
  (∀ p ∈ mm.transactions, p.1 = txKey p.2.transaction) ∧
  mm.transactions.length ≤ mm.maxSize

theorem mempoolInv_of_sublist (mm mm2 : MempoolManager)
    (h : mm2.transactions.Sublist mm.transactions)
    (hmax : mm2.maxSize = mm.maxSize) (hinv : MempoolInv mm) : MempoolInv mm2 := by
  obtain ⟨hnd, hk, hc, hlen⟩ := hinv
  refine ⟨(mapKeys_sublist_of_sublist h).nodup hnd, ?_, ?_, ?_⟩
  · intro k hkm
    exact hk k ((mapKeys_sublist_of_sublist h).mem hkm)
  · intro p hp
    exact hc p (h.mem hp)
  · rw [hmax]
    exact le_trans h.length_le hlen

theorem eraseFold_sublist (ids : List (List Nat)) :
    ∀ l : List (String × MempoolTransaction),
      (ids.foldl (fun t id => mapErase (hexOf id) t) l).Sublist l := by
  induction ids with
  | nil => intro l; exact List.Sublist.refl l
  | cons id ids ih =>
      intro l
      rw [List.foldl_cons]
      exact (ih (mapErase (hexOf id) l)).trans (mapErase_sublist _ l)

theorem addTransaction_inv (mm : MempoolManager) (tx : TransactionInterface) (now : Nat)
    (hmax : 0 < mm.maxSize) (hid : tx.getID ≠ []) (hinv : MempoolInv mm) :
    MempoolInv (AddTransaction mm tx now).2 ∧
    (AddTransaction mm tx now).2.maxSize = mm.maxSize := by
  obtain ⟨hnd, hk, hc, hlen⟩ := hinv
  have hkey : txKey tx ≠ "" := hexOf_ne_empty tx.getID hid
  by_cases hdup : (mapLookup (txKey tx) mm.transactions).isSome = true
  · rw [AddTransaction, if_pos hdup]
    exact ⟨⟨hnd, hk, hc, hlen⟩, rfl⟩
  · rw [AddTransaction, if_neg hdup]
    by_cases hfull : mm.transactions.length ≥ mm.maxSize
    · rw [if_pos hfull]
      have hne : mm.transactions ≠ [] := by
        intro h0
        rw [h0] at hfull
        simp only [List.length_nil] at hfull
        exact absurd (Nat.le_antisymm hfull (Nat.zero_le _)) (Nat.ne_of_gt hmax)
      obtain ⟨k, e, hmem, _hmin, htr, hms, _hto⟩ := evictOldestTransaction_spec mm hne hk
      have hkmem : k ∈ mapKeys mm.transactions := List.mem_map_of_mem _ hmem
      have hlen1 : (evictOldestTransaction mm).transactions.length + 1
          = mm.transactions.length := by
        rw [htr]
        exact length_mapErase_of_mem k mm.transactions hnd hkmem
      have hnd1 : (mapKeys (evictOldestTransaction mm).transactions).Nodup := by
        rw [htr]
        exact nodup_mapKeys_mapErase k mm.transactions hnd
      refine ⟨⟨?_, ?_, ?_, ?_⟩, hms⟩
      · exact nodup_mapKeys_mapSet _ _ _ hnd1
      · intro a ha
        rw [mapKeys_mapSet] at ha
        rcases List.mem_append.mp ha with ha | ha
        · rw [htr] at ha
          rw [mem_mapKeys_mapErase] at ha
          rw [mem_mapKeys_mapErase] at ha
          exact hk a ha.1.1
        · rw [List.mem_singleton] at ha
          rw [ha]
          exact hkey
      · intro p hp
        rcases List.mem_append.mp hp with hp | hp
        · rw [htr] at hp
          exact hc p (((mapErase_sublist (txKey tx) (mapErase k mm.transactions)).trans
            (mapErase_sublist k mm.transactions)).mem hp)
        · rw [List.mem_singleton] at hp
          rw [hp]
          rfl
      · show (mapSet (txKey tx) (newMempoolEntry tx now)
            (evictOldestTransaction mm).transactions).length
            ≤ (evictOldestTransaction mm).maxSize
        rw [hms]
        calc (mapSet (txKey tx) (newMempoolEntry tx now)
              (evictOldestTransaction mm).transactions).length
            ≤ (evictOldestTransaction mm).transactions.length + 1 := length_mapSet_le _ _ _
          _ = mm.transactions.length := hlen1
          _ ≤ mm.maxSize := hlen
    · rw [if_neg hfull]
      refine ⟨⟨?_, ?_, ?_, ?_⟩, rfl⟩
      · exact nodup_mapKeys_mapSet _ _ _ hnd
      · intro a ha
        rw [mapKeys_mapSet] at ha
        rcases List.mem_append.mp ha with ha | ha
        · rw [mem_mapKeys_mapErase] at ha
          exact hk a ha.1
        · rw [List.mem_singleton] at ha
          rw [ha]
          exact hkey
      · intro p hp
        rcases List.mem_append.mp hp with hp | hp
        · exact hc p ((mapErase_sublist _ mm.transactions).mem hp)
        · rw [List.mem_singleton] at hp
          rw [hp]
          rfl
      · calc (mapSet (txKey tx) (newMempoolEntry tx now) mm.transactions).length
            ≤ mm.transactions.length + 1 := length_mapSet_le _ _ _
          _ ≤ mm.maxSize := Nat.succ_le_of_lt (Nat.lt_of_not_ge hfull)

theorem applyMempoolOp_inv (mm : MempoolManager) (op : MempoolOp)
    (hmax : 0 < mm.maxSize) (hwf : mempoolOpWF op = true) (hinv : MempoolInv mm) :
    MempoolInv (applyMempoolOp mm op) ∧ (applyMempoolOp mm op).maxSize = mm.maxSize := by
  cases op with
  | add tx now =>
      have hid : tx.getID ≠ [] := by
        simp only [mempoolOpWF, Bool.not_eq_eq_eq_not, Bool.not_true] at hwf
        intro h0
        rw [h0] at hwf
        simp at hwf
      exact addTransaction_inv mm tx now hmax hid hinv
  | remove id =>
      refine ⟨mempoolInv_of_sublist mm _ ?_ rfl hinv, rfl⟩
      exact mapErase_sublist _ mm.transactions
  | removeConfirmed ids =>
      refine ⟨mempoolInv_of_sublist mm _ ?_ rfl hinv, rfl⟩
      exact eraseFold_sublist ids mm.transactions
  | cleanExpired now =>
      refine ⟨mempoolInv_of_sublist mm _ ?_ rfl hinv, rfl⟩
      exact List.filter_sublist mm.transactions
  | clear =>
      refine ⟨mempoolInv_of_sublist mm _ ?_ rfl hinv, rfl⟩
      exact List.nil_sublist mm.transactions

theorem applyMempoolOps_inv (ops : List MempoolOp) :
    ∀ mm : MempoolManager, 0 < mm.maxSize → (∀ op ∈ ops, mempoolOpWF op = true) →
      MempoolInv mm →
      MempoolInv (applyMempoolOps mm ops) ∧ (applyMempoolOps mm ops).maxSize = mm.maxSize := by
  induction ops with
  | nil =>
      intro mm _ _ hinv
      exact ⟨hinv, rfl⟩
  | cons op ops ih =>
      intro mm hmax hwf hinv
      obtain ⟨hinv1, hms1⟩ :=
        applyMempoolOp_inv mm op hmax (hwf op (List.mem_cons_self op ops)) hinv
      have hmax1 : 0 < (applyMempoolOp mm op).maxSize := by rw [hms1]; exact hmax
      obtain ⟨hinv2, hms2⟩ := ih (applyMempoolOp mm op) hmax1
        (fun o ho => hwf o (List.mem_cons_of_mem op ho)) hinv1
      rw [applyMempoolOps, List.foldl_cons]
      exact ⟨hinv2, by rw [show (List.foldl applyMempoolOp (applyMempoolOp mm op) ops)
        = applyMempoolOps (applyMempoolOp mm op) ops from rfl, hms2, hms1]⟩

/-! ## Claim C1: mempool size bound and eviction at capacity -/

/-- C1: starting from the empty pool of `NewMempoolManager`
(`maxSize = 1000`), no sequence of mempool operations (each admitted
transaction having a non-empty ID, as every transaction of this
repository does) ever pushes the entry count past 1000; and calling
`AddTransaction` on a pool holding exactly `maxSize` entries with a
fresh transaction succeeds, first removing exactly one entry — one
whose admission timestamp is least — and then appending the new entry,
leaving exactly `maxSize` entries. -/
theorem C1_mempool_size_bound_and_eviction :
    (∀ ops : List MempoolOp, (∀ op ∈ ops, mempoolOpWF op = true) →
      (applyMempoolOps NewMempoolManager ops).transactions.length ≤ 1000) ∧
    (∀ (mm : MempoolManager) (tx : TransactionInterface) (now : Nat),
      (mapKeys mm.transactions).Nodup →
      (∀ k ∈ mapKeys mm.transactions, k ≠ "") →
      0 < mm.maxSize →
      mm.transactions.length = mm.maxSize →
      tx.getID ≠ [] →
      mapLookup (txKey tx) mm.transactions = none →
      (AddTransaction mm tx now).1 = none ∧
      ∃ k e, (k, e) ∈ mm.transactions ∧
        (∀ p ∈ mm.transactions, e.timestamp ≤ p.2.timestamp) ∧
        (AddTransaction mm tx now).2.transactions
          = mapErase k mm.transactions ++ [(txKey tx, newMempoolEntry tx now)] ∧
        (AddTransaction mm tx now).2.transactions.length = mm.maxSize) := by
  constructor
  · intro ops hwf
    have hinv0 : MempoolInv NewMempoolManager := by
      refine ⟨?_, ?_, ?_, ?_⟩ <;> simp [NewMempoolManager, mapKeys]
    obtain ⟨⟨_, _, _, hlen⟩, hms⟩ := applyMempoolOps_inv ops NewMempoolManager
      (by simp [NewMempoolManager]) hwf hinv0
    rw [hms] at hlen
    exact hlen
  · intro mm tx now hnd hkeys hmax hfull hid hfresh
    have hdup : ¬(mapLookup (txKey tx) mm.transactions).isSome = true := by
      rw [hfresh]
      simp
    have hge : mm.transactions.length ≥ mm.maxSize := Nat.le_of_eq hfull.symm
    have hne : mm.transactions ≠ [] := by
      intro h0
      rw [h0] at hfull
      simp only [List.length_nil] at hfull
      exact absurd hfull.symm (Nat.ne_of_gt hmax)
    obtain ⟨k, e, hmem, hmin, htr, _hms, _hto⟩ := evictOldestTransaction_spec mm hne hkeys
    have hkmem : k ∈ mapKeys mm.transactions := List.mem_map_of_mem _ hmem
    have hnotmem : txKey tx ∉ mapKeys (mapErase k mm.transactions) := by
      rw [mem_mapKeys_mapErase]
      rintro ⟨hmemTx, -⟩
      exact (mapLookup_eq_none_iff (txKey tx) mm.transactions).mp hfresh hmemTx
    have htrans : (AddTransaction mm tx now).2.transactions
        = mapErase k mm.transactions ++ [(txKey tx, newMempoolEntry tx now)] := by
      rw [AddTransaction, if_neg hdup, if_pos hge]
      show mapSet (txKey tx) (newMempoolEntry tx now)
        (evictOldestTransaction mm).transactions = _
      rw [htr]
      exact mapSet_of_not_mem _ _ _ hnotmem
    refine ⟨?_, k, e, hmem, hmin, htrans, ?_⟩
    · rw [AddTransaction, if_neg hdup, if_pos hge]
    · rw [htrans, List.length_append, List.length_singleton,
        length_mapErase_of_mem k mm.transactions hnd hkmem, hfull]

/-- Witness for C1 at concrete inputs: one admission from the empty
pool, and an admission into the full two-entry pool `wPool2`. -/
theorem C1_mempool_size_bound_and_eviction_witness :
    ((∀ op ∈ [MempoolOp.add wtxA 0], mempoolOpWF op = true) ∧
      (applyMempoolOps NewMempoolManager [MempoolOp.add wtxA 0]).transactions.length ≤ 1000) ∧
    ((mapKeys wPool2.transactions).Nodup ∧
      (∀ k ∈ mapKeys wPool2.transactions, k ≠ "") ∧
      0 < wPool2.maxSize ∧
      wPool2.transactions.length = wPool2.maxSize ∧
      wtxC.getID ≠ [] ∧
      mapLookup (txKey wtxC) wPool2.transactions = none ∧
      ((AddTransaction wPool2 wtxC 7).1 = none ∧
        ∃ k e, (k, e) ∈ wPool2.transactions ∧
          (∀ p ∈ wPool2.transactions, e.timestamp ≤ p.2.timestamp) ∧
          (AddTransaction wPool2 wtxC 7).2.transactions
            = mapErase k wPool2.transactions ++ [(txKey wtxC, newMempoolEntry wtxC 7)] ∧
          (AddTransaction wPool2 wtxC 7).2.transactions.length = wPool2.maxSize)) :=
  ⟨⟨by decide, C1_mempool_size_bound_and_eviction.1 [MempoolOp.add wtxA 0] (by decide)⟩,
    by decide, by decide, by decide, by decide, by decide, by decide,
    C1_mempool_size_bound_and_eviction.2 wPool2 wtxC 7 (by decide) (by decide) (by decide)
      (by decide) (by decide) (by decide)⟩

/-! ## Claim C6: duplicate admission is rejected without mutation -/

/-- C6: admitting a transaction whose ID is already pooled returns the
duplicate error and leaves the pool exactly as it was; consequently, in
every pool reachable from the empty pool, keys (the rendered
transaction IDs) are pairwise distinct and each entry is keyed by its
own transaction's ID, so no two entries share a transaction ID. -/
theorem C6_duplicate_add_rejected_no_mutation :
    (∀ (mm : MempoolManager) (tx : TransactionInterface) (now : Nat),
      (mapLookup (txKey tx) mm.transactions).isSome = true →
      AddTransaction mm tx now = (some (MempoolError.duplicate (txKey tx)), mm)) ∧
    (∀ ops : List MempoolOp, (∀ op ∈ ops, mempoolOpWF op = true) →
      (mapKeys (applyMempoolOps NewMempoolManager ops).transactions).Nodup ∧
      ∀ p ∈ (applyMempoolOps NewMempoolManager ops).transactions,
        p.1 = txKey p.2.transaction) := by
  constructor
  · intro mm tx now h
    rw [AddTransaction, if_pos h]
  · intro ops hwf
    have hinv0 : MempoolInv NewMempoolManager := by
      refine ⟨?_, ?_, ?_, ?_⟩ <;> simp [NewMempoolManager, mapKeys]
    obtain ⟨⟨hnd, _, hcons, _⟩, _⟩ := applyMempoolOps_inv ops NewMempoolManager
      (by simp [NewMempoolManager]) hwf hinv0
    exact ⟨hnd, hcons⟩

/-- Witness for C6: re-admitting `wtxA`, already held by `wPool2`,
fails with the duplicate error; and a two-admission run keeps keys
distinct. -/
theorem C6_duplicate_add_rejected_no_mutation_witness :
    ((mapLookup (txKey wtxA) wPool2.transactions).isSome = true ∧
      AddTransaction wPool2 wtxA 9 = (some (MempoolError.duplicate (txKey wtxA)), wPool2)) ∧
    ((∀ op ∈ [MempoolOp.add wtxA 0, MempoolOp.add wtxB 1], mempoolOpWF op = true) ∧
      (mapKeys (applyMempoolOps NewMempoolManager
        [MempoolOp.add wtxA 0, MempoolOp.add wtxB 1]).transactions).Nodup ∧
      ∀ p ∈ (applyMempoolOps NewMempoolManager
        [MempoolOp.add wtxA 0, MempoolOp.add wtxB 1]).transactions,
        p.1 = txKey p.2.transaction) :=
  ⟨⟨by decide, C6_duplicate_add_rejected_no_mutation.1 wPool2 wtxA 9 (by decide)⟩,
    ⟨by decide, C6_duplicate_add_rejected_no_mutation.2
      [MempoolOp.add wtxA 0, MempoolOp.add wtxB 1] (by decide)⟩⟩

/-! ## Connected-peer counting lemmas -/

theorem connCount_sublist {l1 l2 : List (String × Peer)} (h : l1.Sublist l2) :
    (l1.filter connPred).length ≤ (l2.filter connPred).length :=
  (h.filter connPred).length_le

theorem connCount_mapSet_le (k : String) (v : Peer) (l : List (String × Peer)) :
    ((mapSet k v l).filter connPred).length ≤ (l.filter connPred).length + 1 := by
  rw [mapSet, List.filter_append]
  rw [List.length_append]
  have h1 : ((mapErase k l).filter connPred).length ≤ (l.filter connPred).length :=
    connCount_sublist (mapErase_sublist k l)
  have h2 : (List.filter connPred [(k, v)]).length ≤ 1 := by
    by_cases hv : connPred (k, v) = true <;> simp [List.filter, hv]
  omega

theorem connCount_mapSet_notconn (k : String) (v : Peer) (l : List (String × Peer))
    (h : v.connected = false) :
    ((mapSet k v l).filter connPred).length ≤ (l.filter connPred).length := by
  rw [mapSet, List.filter_append]
  have h2 : List.filter connPred [(k, v)] = [] := by
    simp [List.filter, connPred, h]
  rw [h2, List.append_nil]
  exact connCount_sublist (mapErase_sublist k l)

theorem connCount_mapSet_new_conn (k : String) (v : Peer) (l : List (String × Peer))
    (hk : k ∉ mapKeys l) (hv : connPred (k, v) = true) :
    ((mapSet k v l).filter connPred).length = (l.filter connPred).length + 1 := by
  rw [mapSet_of_not_mem k v l hk, List.filter_append, List.length_append]
  have h1 : List.filter connPred [(k, v)] = [(k, v)] := by
    simp [List.filter, hv]
  rw [h1]
  rfl

theorem updatePeerInfo_increments (nm : NodeManager) (a : String) (h v : Int) (now : Nat)
    (hlk : mapLookup a nm.peers = none) :
    getConnectedPeerCount (UpdatePeerInfo nm a h v now)
      = getConnectedPeerCount nm + 1 := by
  rw [UpdatePeerInfo, hlk]
  show ((mapSet a _ nm.peers).filter connPred).length = _
  apply connCount_mapSet_new_conn
  · exact (mapLookup_eq_none_iff a nm.peers).mp hlk
  · rfl

theorem connectToPeer_at_capacity (nm : NodeManager) (a : String) (ok : Bool) (now : Nat)
    (h1 : a ≠ nm.selfAddr)
    (h2 : (mapLookup a nm.peers).any (fun p => p.connected) = false)
    (h3 : getConnectedPeerCount nm ≥ nm.maxPeers) :
    ConnectToPeer nm a ok now = (some ConnectError.maxPeersReached, nm) := by
  rw [ConnectToPeer, if_neg h1, if_neg (by rw [h2]; simp), if_pos h3]

theorem connectToPeer_bound (nm : NodeManager) (a : String) (ok : Bool) (now : Nat)
    (hinv : getConnectedPeerCount nm ≤ nm.maxPeers) :
    getConnectedPeerCount (ConnectToPeer nm a ok now).2 ≤ (ConnectToPeer nm a ok now).2.maxPeers := by
  rw [ConnectToPeer]
  by_cases h1 : a = nm.selfAddr
  · rw [if_pos h1]
    exact hinv
  · rw [if_neg h1]
    by_cases h2 : (mapLookup a nm.peers).any (fun p => p.connected) = true
    · rw [if_pos h2]
      exact hinv
    · rw [if_neg h2]
      by_cases h3 : getConnectedPeerCount nm ≥ nm.maxPeers
      · rw [if_pos h3]
        exact hinv
      · rw [if_neg h3]
        have hlt : getConnectedPeerCount nm + 1 ≤ nm.maxPeers :=
          Nat.succ_le_of_lt (Nat.lt_of_not_ge h3)
        cases ok with
        | true =>
            rw [if_pos rfl]
            show ((mapSet a _ nm.peers).filter connPred).length ≤ nm.maxPeers
            exact le_trans (connCount_mapSet_le _ _ _) hlt
        | false =>
            rw [if_neg (by simp)]
            show ((mapSet a _ nm.peers).filter connPred).length ≤ nm.maxPeers
            exact le_trans (connCount_mapSet_notconn _ _ _ rfl)
              (le_trans (Nat.le_succ _) hlt)

theorem applyNodeOp_bound (nm : NodeManager) (op : NodeOp)
    (hop : nodeOpNotUpdate op = true)
    (hinv : getConnectedPeerCount nm ≤ nm.maxPeers) :
    getConnectedPeerCount (applyNodeOp nm op) ≤ (applyNodeOp nm op).maxPeers := by
  cases op with
  | connect a ok now => exact connectToPeer_bound nm a ok now hinv
  | disconnect a =>
      show getConnectedPeerCount (DisconnectFromPeer nm a) ≤ (DisconnectFromPeer nm a).maxPeers
      rw [DisconnectFromPeer]
      cases hlk : mapLookup a nm.peers with
      | none => exact hinv
      | some peer =>
          show ((mapSet a _ nm.peers).filter connPred).length ≤ nm.maxPeers
          exact le_trans (connCount_mapSet_notconn _ _ _ rfl) hinv
  | addPeer a now =>
      show getConnectedPeerCount (AddPeer nm a now) ≤ (AddPeer nm a now).maxPeers
      rw [AddPeer]
      by_cases h1 : a = nm.selfAddr
      · rw [if_pos h1]
        exact hinv
      · rw [if_neg h1]
        by_cases h2 : (mapLookup a nm.peers).isSome = true
        · rw [if_pos h2]
          exact hinv
        · rw [if_neg h2]
          show ((mapSet a _ nm.peers).filter connPred).length ≤ nm.maxPeers
          exact le_trans (connCount_mapSet_notconn _ _ _ rfl) hinv
  | removePeer a =>
      show getConnectedPeerCount (RemovePeer nm a) ≤ (RemovePeer nm a).maxPeers
      exact le_trans (connCount_sublist (mapErase_sublist a nm.peers)) hinv
  | banPeer a =>
      show getConnectedPeerCount (BanPeer nm a) ≤ (BanPeer nm a).maxPeers
      rw [BanPeer]
      cases hlk : mapLookup a nm.peers with
      | none => exact hinv
      | some peer =>
          show ((mapSet a _ nm.peers).filter connPred).length ≤ nm.maxPeers
          exact le_trans (connCount_mapSet_notconn _ _ _ rfl) hinv
  | updatePeerInfo a h v now => simp [nodeOpNotUpdate] at hop

theorem applyNodeOp_maxPeers (nm : NodeManager) (op : NodeOp) :
    (applyNodeOp nm op).maxPeers = nm.maxPeers := by
  cases op with
  | connect a ok now =>
      show (ConnectToPeer nm a ok now).2.maxPeers = nm.maxPeers
      rw [ConnectToPeer]
      by_cases h1 : a = nm.selfAddr
      · rw [if_pos h1]
      · rw [if_neg h1]
        by_cases h2 : (mapLookup a nm.peers).any (fun p => p.connected) = true
        · rw [if_pos h2]
        · rw [if_neg h2]
          by_cases h3 : getConnectedPeerCount nm ≥ nm.maxPeers
          · rw [if_pos h3]
          · rw [if_neg h3]
            cases ok with
            | true => rw [if_pos rfl]
            | false => rw [if_neg (by simp)]
  | disconnect a =>
      show (DisconnectFromPeer nm a).maxPeers = nm.maxPeers
      rw [DisconnectFromPeer]
      cases mapLookup a nm.peers <;> rfl
  | addPeer a now =>
      show (AddPeer nm a now).maxPeers = nm.maxPeers
      rw [AddPeer]
      by_cases h1 : a = nm.selfAddr
      · rw [if_pos h1]
      · rw [if_neg h1]
        by_cases h2 : (mapLookup a nm.peers).isSome = true
        · rw [if_pos h2]
        · rw [if_neg h2]
  | removePeer a => rfl
  | banPeer a =>
      show (BanPeer nm a).maxPeers = nm.maxPeers
      rw [BanPeer]
      cases mapLookup a nm.peers <;> rfl
  | updatePeerInfo a h v now =>
      show (UpdatePeerInfo nm a h v now).maxPeers = nm.maxPeers
      rw [UpdatePeerInfo]
      cases mapLookup a nm.peers <;> rfl

theorem applyNodeOps_bound (ops : List NodeOp) :
    ∀ nm : NodeManager, (∀ op ∈ ops, nodeOpNotUpdate op = true) →
      getConnectedPeerCount nm ≤ nm.maxPeers →
      getConnectedPeerCount (applyNodeOps nm ops) ≤ (applyNodeOps nm ops).maxPeers ∧
      (applyNodeOps nm ops).maxPeers = nm.maxPeers := by
  induction ops with
  | nil =>
      intro nm _ hinv
      exact ⟨hinv, rfl⟩
  | cons op ops ih =>
      intro nm hops hinv
      have h1 := applyNodeOp_bound nm op (hops op (List.mem_cons_self op ops)) hinv
      obtain ⟨h2, h3⟩ := ih (applyNodeOp nm op)
        (fun o ho => hops o (List.mem_cons_of_mem op ho)) h1
      rw [applyNodeOps, List.foldl_cons]
      refine ⟨h2, ?_⟩
      rw [show List.foldl applyNodeOp (applyNodeOp nm op) ops
        = applyNodeOps (applyNodeOp nm op) ops from rfl, h3, applyNodeOp_maxPeers]

theorem mapLookup_mapSet_self {α : Type} (k : String) (v : α) (l : List (String × α)) :
    mapLookup k (mapSet k v l) = some v := by
  rw [mapLookup, mapSet, List.find?_append]
  have h1 : (mapErase k l).find? (fun p => p.1 = k) = none := by
    rw [List.find?_eq_none]
    intro p hp
    have : p.1 ≠ k := by
      have hm : p.1 ∈ mapKeys (mapErase k l) := List.mem_map_of_mem _ hp
      intro he
      rw [he] at hm
      exact not_mem_mapKeys_mapErase k l hm
    simp [this]
  rw [h1]
  simp [List.find?]

/-! ## Claim C2: the connected-peer bound -/

/-- C2 counterexample: nine `UpdatePeerInfo` calls on distinct
addresses, starting from the empty table of `NewNodeManager`
(`maxPeers = 8`), leave nine Connected peers — the claimed invariant
fails on `UpdatePeerInfo`, which never checks the capacity.  The first
eight calls fill the table to exactly the maximum, and the single ninth
public operation, one more `UpdatePeerInfo`, crosses the bound. -/
theorem C2_connected_bound_counterexample :
    getConnectedPeerCount (applyNodeOps (NewNodeManager "localhost:3000") wNodeOps9) = 9 ∧
    (applyNodeOps (NewNodeManager "localhost:3000") wNodeOps9).maxPeers = 8 ∧ ¬(9 ≤ 8) ∧
    getConnectedPeerCount
      (applyNodeOps (NewNodeManager "localhost:3000") (wNodeOps9.take 8)) = 8 ∧
    applyNodeOps (NewNodeManager "localhost:3000") wNodeOps9
      = UpdatePeerInfo
          (applyNodeOps (NewNodeManager "localhost:3000") (wNodeOps9.take 8)) "p8" 0 0 0 := by
  decide

/-- C2 amended: `ConnectToPeer` invoked at capacity (not self, not
already connected) fails with the capacity error and leaves the table
untouched, and the connected count stays within `maxPeers = 8` under
every operation sequence that avoids `UpdatePeerInfo`; `UpdatePeerInfo`
itself performs no capacity check — on an unknown address it always
increments the connected count by one, at any occupancy, so it can
exceed the bound. -/
theorem C2_connect_capacity_amended :
    (∀ (nm : NodeManager) (a : String) (ok : Bool) (now : Nat),
      a ≠ nm.selfAddr →
      (mapLookup a nm.peers).any (fun p => p.connected) = false →
      getConnectedPeerCount nm ≥ nm.maxPeers →
      ConnectToPeer nm a ok now = (some ConnectError.maxPeersReached, nm)) ∧
    (∀ (self : String) (ops : List NodeOp),
      (∀ op ∈ ops, nodeOpNotUpdate op = true) →
      getConnectedPeerCount (applyNodeOps (NewNodeManager self) ops) ≤ 8) ∧
    (∀ (nm : NodeManager) (a : String) (h v : Int) (now : Nat),
      mapLookup a nm.peers = none →
      getConnectedPeerCount (UpdatePeerInfo nm a h v now)
        = getConnectedPeerCount nm + 1) := by
  refine ⟨?_, ?_, ?_⟩
  · exact connectToPeer_at_capacity
  · intro self ops hops
    obtain ⟨h1, h2⟩ := applyNodeOps_bound ops (NewNodeManager self) hops
      (by simp [getConnectedPeerCount, NewNodeManager])
    rw [h2] at h1
    exact h1
  · exact updatePeerInfo_increments

/-- Witness for the amended C2: a full 8-peer table rejects a ninth
connect with the capacity error, a concrete update-free run stays
within the bound, and `UpdatePeerInfo` on a fresh address raises the
full table's connected count from 8 to 9. -/
theorem C2_connect_capacity_amended_witness :
    (("p9" : String) ≠ wFullNode.selfAddr ∧
      (mapLookup "p9" wFullNode.peers).any (fun p => p.connected) = false ∧
      getConnectedPeerCount wFullNode ≥ wFullNode.maxPeers ∧
      ConnectToPeer wFullNode "p9" true 3 = (some ConnectError.maxPeersReached, wFullNode)) ∧
    ((∀ op ∈ [NodeOp.connect "q1" true 0, NodeOp.banPeer "q1"], nodeOpNotUpdate op = true) ∧
      getConnectedPeerCount (applyNodeOps (NewNodeManager "self")
        [NodeOp.connect "q1" true 0, NodeOp.banPeer "q1"]) ≤ 8) ∧
    (mapLookup "q9" wFullNode.peers = none ∧
      getConnectedPeerCount (UpdatePeerInfo wFullNode "q9" 0 0 0)
        = getConnectedPeerCount wFullNode + 1) :=
  ⟨⟨by decide, by decide, by decide,
    C2_connect_capacity_amended.1 wFullNode "p9" true 3 (by decide) (by decide) (by decide)⟩,
   ⟨by decide, C2_connect_capacity_amended.2.1 "self"
    [NodeOp.connect "q1" true 0, NodeOp.banPeer "q1"] (by decide)⟩,
   ⟨by decide,
    C2_connect_capacity_amended.2.2 wFullNode "q9" 0 0 0 (by decide)⟩⟩

/-! ## Claim C3: Banned is not an absorbing state -/

/-- C3 counterexample: ban a known peer, then `UpdatePeerInfo` on the
same address — the status leaves Banned and becomes Connected, so
Banned is not absorbing under the cited operations. -/
theorem C3_banned_absorbing_counterexample :
    peerStatus (applyNodeOps (NewNodeManager "self")
      [.addPeer "p1" 0, .banPeer "p1"]) "p1" = some PeerStatus.banned ∧
    peerStatus (UpdatePeerInfo (applyNodeOps (NewNodeManager "self")
      [.addPeer "p1" 0, .banPeer "p1"]) "p1" 5 1 2) "p1" = some PeerStatus.connected ∧
    peerStatus (DisconnectFromPeer (applyNodeOps (NewNodeManager "self")
      [.addPeer "p1" 0, .banPeer "p1"]) "p1") "p1" = some PeerStatus.disconnected ∧
    PeerStatus.connected ≠ PeerStatus.banned ∧
    PeerStatus.disconnected ≠ PeerStatus.banned := by
  decide

/-- C3 amended: `BanPeer` moves any existing peer to Banned (so Banned
is reachable from every state), but Banned is not absorbing:
`UpdatePeerInfo` on a banned peer's address sets its status to
Connected, and `DisconnectFromPeer` sets it to Disconnected. -/
theorem C3_banned_reachable_not_absorbing :
    (∀ (nm : NodeManager) (a : String) (p : Peer),
      mapLookup a nm.peers = some p →
      peerStatus (BanPeer nm a) a = some PeerStatus.banned) ∧
    (∀ (nm : NodeManager) (a : String) (p : Peer) (h v : Int) (now : Nat),
      mapLookup a nm.peers = some p → p.status = PeerStatus.banned →
      peerStatus (UpdatePeerInfo nm a h v now) a = some PeerStatus.connected) ∧
    (∀ (nm : NodeManager) (a : String) (p : Peer),
      mapLookup a nm.peers = some p → p.status = PeerStatus.banned →
      peerStatus (DisconnectFromPeer nm a) a = some PeerStatus.disconnected) := by
  refine ⟨?_, ?_, ?_⟩
  · intro nm a p hlk
    rw [BanPeer, hlk]
    rw [peerStatus]
    show (mapLookup a (mapSet a _ nm.peers)).map _ = _
    rw [mapLookup_mapSet_self]
    rfl
  · intro nm a p h v now hlk _hst
    rw [UpdatePeerInfo, hlk]
    rw [peerStatus]
    show (mapLookup a (mapSet a _ nm.peers)).map _ = _
    rw [mapLookup_mapSet_self]
    rfl
  · intro nm a p hlk _hst
    rw [DisconnectFromPeer, hlk]
    rw [peerStatus]
    show (mapLookup a (mapSet a _ nm.peers)).map _ = _
    rw [mapLookup_mapSet_self]
    rfl

/-- Witness for the amended C3 on a concrete banned peer. -/
theorem C3_banned_reachable_not_absorbing_witness :
    (mapLookup "p1" wBannedNode.peers = some wBannedPeer ∧
      wBannedPeer.status = PeerStatus.banned) ∧
    peerStatus (BanPeer wBannedNode "p1") "p1" = some PeerStatus.banned ∧
    peerStatus (UpdatePeerInfo wBannedNode "p1" 5 1 2) "p1" = some PeerStatus.connected ∧
    peerStatus (DisconnectFromPeer wBannedNode "p1") "p1" = some PeerStatus.disconnected :=
  ⟨⟨by decide, by decide⟩,
   C3_banned_reachable_not_absorbing.1 wBannedNode "p1" wBannedPeer (by decide),
   C3_banned_reachable_not_absorbing.2.1 wBannedNode "p1" wBannedPeer 5 1 2
     (by decide) (by decide),
   C3_banned_reachable_not_absorbing.2.2 wBannedNode "p1" wBannedPeer
     (by decide) (by decide)⟩

/-! ## Claim C4: decode failures panic instead of returning an error -/

/-- C4 counterexample: a well-framed message whose zero-length body is
not a valid encoding makes `ReadMessage` panic (through
`DeserializeMessage`'s `log.Panic`), and `DeserializeMessage` on empty
input panics — neither path returns a decode error to the caller. -/
theorem C4_decode_error_counterexample :
    ReadMessage [0, 0, 0, 0] = ReadOutcome.panicked ∧
    DeserializeMessage ([] : List Nat) = GoResult.panicked := by
  decide

/-- C4 amended: only stream truncation (short length prefix or short
body) is returned to the caller as an I/O error; once a full frame is
read, a body that fails gob decoding does not produce an error value —
`DeserializeMessage` panics, killing the process. -/
theorem C4_truncation_errors_malformed_panics :
    (∀ input : List Nat, input.length < 4 → ReadMessage input = ReadOutcome.ioError) ∧
    (∀ input : List Nat, ¬ input.length < 4 →
      (input.drop 4).length < BytesToInt (input.take 4) →
      ReadMessage input = ReadOutcome.ioError) ∧
    (∀ data : List Nat, gobDecodeMessage data = none →
      DeserializeMessage data = GoResult.panicked) ∧
    (∀ input : List Nat, ¬ input.length < 4 →
      ¬ (input.drop 4).length < BytesToInt (input.take 4) →
      gobDecodeMessage ((input.drop 4).take (BytesToInt (input.take 4))) = none →
      ReadMessage input = ReadOutcome.panicked) := by
  refine ⟨?_, ?_, ?_, ?_⟩
  · intro input h
    rw [ReadMessage, if_pos h]
  · intro input h1 h2
    rw [ReadMessage, if_neg h1, if_pos h2]
  · intro data h
    rw [DeserializeMessage, h]
  · intro input h1 h2 h3
    rw [ReadMessage, if_neg h1, if_neg h2, DeserializeMessage, h3]

/-- Witness for the amended C4 at concrete byte strings. -/
theorem C4_truncation_errors_malformed_panics_witness :
    (([0, 0] : List Nat).length < 4 ∧ ReadMessage [0, 0] = ReadOutcome.ioError) ∧
    (¬ ([0, 0, 0, 5, 1] : List Nat).length < 4 ∧
      (([0, 0, 0, 5, 1] : List Nat).drop 4).length
        < BytesToInt (([0, 0, 0, 5, 1] : List Nat).take 4) ∧
      ReadMessage [0, 0, 0, 5, 1] = ReadOutcome.ioError) ∧
    (gobDecodeMessage [2] = none ∧ DeserializeMessage [2] = GoResult.panicked) ∧
    (¬ ([0, 0, 0, 1, 2] : List Nat).length < 4 ∧
      ¬ (([0, 0, 0, 1, 2] : List Nat).drop 4).length
        < BytesToInt (([0, 0, 0, 1, 2] : List Nat).take 4) ∧
      gobDecodeMessage ((([0, 0, 0, 1, 2] : List Nat).drop 4).take
        (BytesToInt (([0, 0, 0, 1, 2] : List Nat).take 4))) = none ∧
      ReadMessage [0, 0, 0, 1, 2] = ReadOutcome.panicked) :=
  ⟨⟨by decide, C4_truncation_errors_malformed_panics.1 [0, 0] (by decide)⟩,
   ⟨by decide, by decide,
    C4_truncation_errors_malformed_panics.2.1 [0, 0, 0, 5, 1] (by decide) (by decide)⟩,
   ⟨by decide, C4_truncation_errors_malformed_panics.2.2.1 [2] (by decide)⟩,
   ⟨by decide, by decide, by decide,
    C4_truncation_errors_malformed_panics.2.2.2 [0, 0, 0, 1, 2]
      (by decide) (by decide) (by decide)⟩⟩

/-! ## Claim C5: serialize/deserialize round trip -/

/-- C5: for every message whose command is one of the recognized
commands and whose payload is arbitrary bytes, deserializing the
serialization returns the original message — command tag and payload
both preserved.  (The round trip in fact holds for every command.) -/
theorem C5_serialize_roundtrip (msg : Message)
    (_hcmd : msg.command ∈ recognizedCommands) :
    DeserializeMessage (SerializeMessage msg) = GoResult.ok msg := by
  rw [SerializeMessage, DeserializeMessage, gobDecode_gobEncode]

/-- Witness for C5 on a concrete version message. -/
theorem C5_serialize_roundtrip_witness :
    (Message.mk "version" [1, 2, 3]).command ∈ recognizedCommands ∧
    DeserializeMessage (SerializeMessage (Message.mk "version" [1, 2, 3]))
      = GoResult.ok (Message.mk "version" [1, 2, 3]) :=
  ⟨by decide, C5_serialize_roundtrip (Message.mk "version" [1, 2, 3]) (by decide)⟩

/-! ## Claim C7: handling a block inventory -/

/-- C7 counterexample: an inv(block) carrying `[h, h]` leaves an empty
queue — every entry equal to the first hash is filtered out, not only
the head — so the claimed final queue `[h2, …, hn]` is wrong when the
first hash recurs. -/
theorem C7_inv_block_counterexample :
    HandleInv [] { addrFrom := "a", type := "block", items := [[1], [1]] } (fun _ => false)
      = GoResult.ok { blocksInTransit := [],
                      sent := [SendAction.sendGetData "a" "block" [1]] } ∧
    ([] : List (List Nat)) ≠ [[1]] := by
  decide

/-- C7 amended: a non-empty inv(block) `[h1, …, hn]` sets the queue to
the advertised list, sends exactly one getdata for `h1`, and filters
every queue entry equal to `h1`; when `h1` does not recur the remaining
queue is exactly `[h2, …, hn]`. -/
theorem C7_inv_block_amended (transit : List (List Nat)) (addr : String)
    (h1 : List Nat) (rest : List (List Nat)) (txExists : List Nat → Bool) :
    HandleInv transit { addrFrom := addr, type := "block", items := h1 :: rest } txExists
      = GoResult.ok { blocksInTransit := rest.filter (fun b => !BytesEqual b h1),
                      sent := [SendAction.sendGetData addr "block" h1] } ∧
    (h1 ∉ rest → rest.filter (fun b => !BytesEqual b h1) = rest) := by
  constructor
  · have hred : HandleInv transit { addrFrom := addr, type := "block", items := h1 :: rest }
        txExists
        = GoResult.ok { blocksInTransit := (h1 :: rest).filter (fun b => !BytesEqual b h1),
                        sent := [SendAction.sendGetData addr "block" h1] } := rfl
    rw [hred, List.filter_cons]
    simp [bytesEqual_self]
  · intro hnot
    apply List.filter_eq_self.mpr
    intro b hb
    cases hbe : BytesEqual b h1 with
    | false => rfl
    | true => exact absurd ((bytesEqual_iff b h1).mp hbe) (fun he => hnot (he ▸ hb))

/-- Witness for the amended C7 on the spec's `[h1, h2, h3]` scenario. -/
theorem C7_inv_block_amended_witness :
    HandleInv [] { addrFrom := "a", type := "block", items := [[1], [2], [3]] } (fun _ => false)
      = GoResult.ok { blocksInTransit := [[2], [3]].filter (fun b => !BytesEqual b [1]),
                      sent := [SendAction.sendGetData "a" "block" [1]] } ∧
    ([1] : List Nat) ∉ ([[2], [3]] : List (List Nat)) ∧
    ([[2], [3]] : List (List Nat)).filter (fun b => !BytesEqual b [1]) = [[2], [3]] :=
  ⟨(C7_inv_block_amended [] "a" [1] [[2], [3]] (fun _ => false)).1, by decide,
   (C7_inv_block_amended [] "a" [1] [[2], [3]] (fun _ => false)).2 (by decide)⟩

/-! ## Claim C9: version-message height comparison -/

/-- C9: an incoming version message triggers a getblocks request
exactly when the advertised height exceeds the local best height, a
version reply exactly when the local height exceeds the advertised one,
and no send when the heights are equal. -/
theorem C9_handle_version_heights (s : ServerState) (v : VersionData) (now : Nat) :
    (s.bestHeight < v.bestHeight →
      (HandleVersion s v now).1 = [SendAction.sendGetBlocks v.addrFrom]) ∧
    (v.bestHeight < s.bestHeight →
      (HandleVersion s v now).1 = [SendAction.sendVersion v.addrFrom]) ∧
    (s.bestHeight = v.bestHeight → (HandleVersion s v now).1 = []) := by
  refine ⟨?_, ?_, ?_⟩
  · intro h
    show (if s.bestHeight < v.bestHeight then [SendAction.sendGetBlocks v.addrFrom]
      else if s.bestHeight > v.bestHeight then [SendAction.sendVersion v.addrFrom]
      else []) = _
    rw [if_pos h]
  · intro h
    show (if s.bestHeight < v.bestHeight then [SendAction.sendGetBlocks v.addrFrom]
      else if s.bestHeight > v.bestHeight then [SendAction.sendVersion v.addrFrom]
      else []) = _
    rw [if_neg (lt_asymm h), if_pos h]
  · intro h
    show (if s.bestHeight < v.bestHeight then [SendAction.sendGetBlocks v.addrFrom]
      else if s.bestHeight > v.bestHeight then [SendAction.sendVersion v.addrFrom]
      else []) = _
    rw [if_neg (by rw [h]; exact lt_irrefl _), if_neg (by rw [h]; exact lt_irrefl _)]

/-- Witness for C9 on the spec's scenario: local height 5 against
advertised heights 10, 2 and 5. -/
theorem C9_handle_version_heights_witness :
    (wSrv.bestHeight < wVer10.bestHeight ∧
      (HandleVersion wSrv wVer10 0).1 = [SendAction.sendGetBlocks "peer"]) ∧
    (wVer2.bestHeight < wSrv.bestHeight ∧
      (HandleVersion wSrv wVer2 0).1 = [SendAction.sendVersion "peer"]) ∧
    (wSrv.bestHeight = wVer5.bestHeight ∧ (HandleVersion wSrv wVer5 0).1 = []) :=
  ⟨⟨by decide, (C9_handle_version_heights wSrv wVer10 0).1 (by decide)⟩,
   ⟨by decide, (C9_handle_version_heights wSrv wVer2 0).2.1 (by decide)⟩,
   ⟨by decide, (C9_handle_version_heights wSrv wVer5 0).2.2 (by decide)⟩⟩

/-! ## Claim C10: empty inventory lists panic -/

/-- C10: `HandleInv` reads `invData.Items[0]` unguarded, so an inv
message with an empty item list — of type block or of type tx — panics
(index out of range) instead of being ignored or returning an error. -/
theorem C10_empty_inv_panics (transit : List (List Nat)) (addr : String)
    (txExists : List Nat → Bool) :
    HandleInv transit { addrFrom := addr, type := "block", items := [] } txExists
      = GoResult.panicked ∧
    HandleInv transit { addrFrom := addr, type := "tx", items := [] } txExists
      = GoResult.panicked :=
  ⟨rfl, rfl⟩

/-! ## Claim C8: chain-conflict resolution -/

theorem findLongestStep_none (c : ChainInfo) :
    findLongestStep none c = if validateChainInfo c then some c else none := rfl

theorem findLongestStep_some (l c : ChainInfo) :
    findLongestStep (some l) c =
      if c.height > l.height then
        if validateChainInfo c then some c else some l
      else some l := rfl

theorem findLongestFold_isSome (l : List ChainInfo) :
    ∀ a : ChainInfo, (l.foldl findLongestStep (some a)).isSome = true := by
  induction l with
  | nil =>
      intro a
      rfl
  | cons p rest ih =>
      intro a
      rw [List.foldl_cons, findLongestStep_some]
      by_cases h1 : p.height > a.height
      · rw [if_pos h1]
        by_cases h2 : validateChainInfo p = true
        · rw [if_pos h2]
          exact ih p
        · rw [if_neg h2]
          exact ih a
      · rw [if_neg h1]
        exact ih a

theorem findLongestChain_none_iff (l : List ChainInfo) :
    findLongestChain l = none ↔ ∀ d ∈ l, validateChainInfo d = false := by
  induction l with
  | nil => simp [findLongestChain]
  | cons p rest ih =>
      rw [findLongestChain, List.foldl_cons, findLongestStep_none]
      by_cases hv : validateChainInfo p = true
      · rw [if_pos hv]
        constructor
        · intro h
          have := findLongestFold_isSome rest p
          rw [h] at this
          simp at this
        · intro h
          have := h p (List.mem_cons_self p rest)
          rw [hv] at this
          simp at this
      · rw [if_neg hv]
        rw [show rest.foldl findLongestStep none = findLongestChain rest from rfl, ih]
        constructor
        · intro h d hd
          rcases List.mem_cons.mp hd with rfl | hd2
          · simpa using hv
          · exact h d hd2
        · intro h d hd
          exact h d (List.mem_cons_of_mem p hd)

theorem findLongestFold_some_spec (l : List ChainInfo) :
    ∀ acc : Option ChainInfo, (∀ a, acc = some a → validateChainInfo a = true) →
    ∀ c, l.foldl findLongestStep acc = some c →
      validateChainInfo c = true ∧ (acc = some c ∨ c ∈ l) ∧
      (∀ a, acc = some a → a.height ≤ c.height) ∧
      (∀ d ∈ l, validateChainInfo d = true → d.height ≤ c.height) := by
  induction l with
  | nil =>
      intro acc hacc c hc
      rw [List.foldl_nil] at hc
      refine ⟨hacc c hc, Or.inl hc, ?_, ?_⟩
      · intro a ha
        rw [hc] at ha
        rw [Option.some.inj ha]
      · intro d hd
        simp at hd
  | cons p rest ih =>
      intro acc hacc c hc
      rw [List.foldl_cons] at hc
      cases acc with
      | none =>
          rw [findLongestStep_none] at hc
          by_cases hv : validateChainInfo p = true
          · rw [if_pos hv] at hc
            obtain ⟨g1, g2, g3, g4⟩ := ih (some p)
              (fun a ha => by rw [← Option.some.inj ha]; exact hv) c hc
            refine ⟨g1, ?_, ?_, ?_⟩
            · rcases g2 with g2 | g2
              · refine Or.inr ?_
                rw [← Option.some.inj g2]
                exact List.mem_cons_self p rest
              · exact Or.inr (List.mem_cons_of_mem p g2)
            · intro a ha
              simp at ha
            · intro d hd hdv
              rcases List.mem_cons.mp hd with rfl | hd2
              · exact g3 d rfl
              · exact g4 d hd2 hdv
          · rw [if_neg hv] at hc
            obtain ⟨g1, g2, g3, g4⟩ := ih none (fun a ha => by simp at ha) c hc
            refine ⟨g1, ?_, ?_, ?_⟩
            · rcases g2 with g2 | g2
              · simp at g2
              · exact Or.inr (List.mem_cons_of_mem p g2)
            · intro a ha
              simp at ha
            · intro d hd hdv
              rcases List.mem_cons.mp hd with rfl | hd2
              · exact absurd hdv hv
              · exact g4 d hd2 hdv
      | some a0 =>
          have ha0 : validateChainInfo a0 = true := hacc a0 rfl
          rw [findLongestStep_some] at hc
          by_cases h1 : p.height > a0.height
          · rw [if_pos h1] at hc
            by_cases h2 : validateChainInfo p = true
            · rw [if_pos h2] at hc
              obtain ⟨g1, g2, g3, g4⟩ := ih (some p)
                (fun a ha => by rw [← Option.some.inj ha]; exact h2) c hc
              refine ⟨g1, ?_, ?_, ?_⟩
              · rcases g2 with g2 | g2
                · refine Or.inr ?_
                  rw [← Option.some.inj g2]
                  exact List.mem_cons_self p rest
                · exact Or.inr (List.mem_cons_of_mem p g2)
              · intro a ha
                rw [← Option.some.inj ha]
                exact le_trans (le_of_lt h1) (g3 p rfl)
              · intro d hd hdv
                rcases List.mem_cons.mp hd with rfl | hd2
                · exact g3 d rfl
                · exact g4 d hd2 hdv
            · rw [if_neg h2] at hc
              obtain ⟨g1, g2, g3, g4⟩ := ih (some a0) hacc c hc
              refine ⟨g1, ?_, g3, ?_⟩
              · rcases g2 with g2 | g2
                · exact Or.inl g2
                · exact Or.inr (List.mem_cons_of_mem p g2)
              · intro d hd hdv
                rcases List.mem_cons.mp hd with rfl | hd2
                · exact absurd hdv h2
                · exact g4 d hd2 hdv
          · rw [if_neg h1] at hc
            obtain ⟨g1, g2, g3, g4⟩ := ih (some a0) hacc c hc
            refine ⟨g1, ?_, g3, ?_⟩
            · rcases g2 with g2 | g2
              · exact Or.inl g2
              · exact Or.inr (List.mem_cons_of_mem p g2)
            · intro d hd hdv
              rcases List.mem_cons.mp hd with rfl | hd2
              · exact le_trans (not_lt.mp h1) (g3 a0 rfl)
              · exact g4 d hd2 hdv

/-- C8: `findLongestChain` returns a validating candidate whose claimed
height is maximal among the validating candidates (`none` exactly when
no candidate validates), and `ResolveChainConflicts` triggers chain
adoption — a getblocks request to the selected candidate's node — if
and only if a candidate is selected and its height strictly exceeds the
local best height. -/
theorem C8_resolve_chain_conflicts :
    (∀ (chains : List ChainInfo) (c : ChainInfo),
      findLongestChain chains = some c →
      validateChainInfo c = true ∧ c ∈ chains ∧
        ∀ d ∈ chains, validateChainInfo d = true → d.height ≤ c.height) ∧
    (∀ chains : List ChainInfo,
      findLongestChain chains = none ↔ ∀ d ∈ chains, validateChainInfo d = false) ∧
    (∀ (currentHeight : Int) (chains : List ChainInfo) (a : String),
      ResolveChainConflicts currentHeight chains = some a ↔
        ∃ c, findLongestChain chains = some c ∧ c.nodeAddr = a ∧
          c.height > currentHeight) := by
  refine ⟨?_, findLongestChain_none_iff, ?_⟩
  · intro chains c hc
    obtain ⟨g1, g2, _g3, g4⟩ :=
      findLongestFold_some_spec chains none (fun a ha => by simp at ha) c hc
    refine ⟨g1, ?_, g4⟩
    rcases g2 with g2 | g2
    · simp at g2
    · exact g2
  · intro currentHeight chains a
    rw [ResolveChainConflicts]
    cases hf : findLongestChain chains with
    | none =>
        simp
    | some l =>
        show (if l.height > currentHeight then some l.nodeAddr else none) = some a ↔
          ∃ c, some l = some c ∧ c.nodeAddr = a ∧ c.height > currentHeight
        by_cases hh : l.height > currentHeight
        · rw [if_pos hh]
          constructor
          · intro h
            exact ⟨l, rfl, Option.some.inj h, hh⟩
          · rintro ⟨c, hc, hca, -⟩
            rw [← Option.some.inj hc] at hca
            rw [hca]
        · rw [if_neg hh]
          constructor
          · intro h
            simp at h
          · rintro ⟨c, hc, -, hch⟩
            exact absurd (Option.some.inj hc ▸ hch) hh

/-- Witness for C8 on `wChains`: the valid height-7 candidate is
selected over a taller invalid one, adoption fires at local height 6
and not at local height 9. -/
theorem C8_resolve_chain_conflicts_witness :
    (findLongestChain wChains = some { nodeAddr := "n3", height := 7, hash := [2] } ∧
      validateChainInfo { nodeAddr := "n3", height := 7, hash := [2] } = true ∧
      ChainInfo.mk "n3" 7 [2] ∈ wChains ∧
      (∀ d ∈ wChains, validateChainInfo d = true →
        d.height ≤ (ChainInfo.mk "n3" 7 [2]).height)) ∧
    (findLongestChain [ChainInfo.mk "n2" 10 []] = none ∧
      ∀ d ∈ [ChainInfo.mk "n2" 10 []], validateChainInfo d = false) ∧
    (ResolveChainConflicts 6 wChains = some "n3" ∧
      ResolveChainConflicts 9 wChains = none) :=
  ⟨⟨by decide,
    C8_resolve_chain_conflicts.1 wChains (ChainInfo.mk "n3" 7 [2]) (by decide)⟩,
   ⟨by decide, (C8_resolve_chain_conflicts.2.1 [ChainInfo.mk "n2" 10 []]).mp (by decide)⟩,
   ⟨(C8_resolve_chain_conflicts.2.2 6 wChains "n3").mpr
      ⟨ChainInfo.mk "n3" 7 [2], by decide, rfl, by decide⟩,
    by decide⟩⟩

end Network
